import Mathlib

/-!
# Verification of the DrawingMaster raster editing core (`src/app.js`)

Shallow embedding of the raster editing core of the `DrawingMaster` class:
the pixel-buffer accessors, the flood-fill engine, the snapshot history
manager (push / undo / redo) and the pointer-gesture dispatch.

Modelling conventions:
* An `ImageData` RGBA quadruple (4 consecutive bytes at offset
  `(y*width + x)*4` of `data`) is modelled as one `Color` cell at linear
  index `y*width + x` of a `List Color`.  `Uint8ClampedArray` ignores
  out-of-range writes, which `List.set` models exactly; out-of-range reads
  yield `undefined` in JS, modelled by the `getD` fallback (the spec makes
  out-of-range access the caller's responsibility, and every caller in the
  core bounds-checks first).
* JS numbers carrying pixel positions are modelled as `ℚ` (`Math.floor`
  becomes `Rat.floor`); the coordinates pushed on the flood-fill stack are
  `Int` pairs, exactly as the JS values may go negative at the borders.
* `this.historyIndex` is an `Int`: the constructor initialises it to `-1`.
* Browser collaborators (the 2D context's path rasterizer, `fillText`,
  the hex string parse of `#rrggbb`, `prompt`) are external to the core:
  drawing primitives are passed in as an abstract `CanvasOps` record and
  the already-parsed values (`Rgb` triple, `Option String` prompt result)
  are taken as arguments, so every theorem below holds for an arbitrary
  renderer.
-/

namespace DrawingMaster

/-- An RGBA color: four integer channels 0–255 (`{r,g,b,a}` objects in the
source).  Channel ranges are not re-checked here, matching the source. -/
structure Color where
  r : Nat
  g : Nat
  b : Nat
  a : Nat
  deriving DecidableEq, Repr

/-- A non-alpha color triple, the parsed form of a `#rrggbb` hex string
(`this.currentColor`). -/
structure Rgb where
  r : Nat
  g : Nat
  b : Nat
  deriving DecidableEq, Repr

/-- The `ImageData` pixel buffer: `width × height` grid of RGBA cells,
row-major (cell `(x,y)` lives at linear index `y*width + x`). -/
structure ImageData where
  width : Nat
  height : Nat
  data : List Color
  deriving DecidableEq, Repr

/-- `getPixelColor(imageData, x, y)`: read the cell at offset
`y*width + x`. -/
def getPixelColor (img : ImageData) (x y : Nat) : Color :=
  img.data.getD (y * img.width + x) ⟨0, 0, 0, 0⟩

/-- `setPixelColor(imageData, x, y, color)`: write the cell at offset
`y*width + x` (silently ignored when out of range, as for a
`Uint8ClampedArray`). -/
def setPixelColor (img : ImageData) (x y : Nat) (color : Color) : ImageData :=
  { img with data := img.data.set (y * img.width + x) color }

/-- `colorsEqual(color1, color2)`: exact equality of all four channels. -/
def colorsEqual (color1 color2 : Color) : Bool :=
  color1.r == color2.r && color1.g == color2.g &&
  color1.b == color2.b && color1.a == color2.a

/-- `Math.round` for the non-negative values used here:
round half away from zero, i.e. `⌊q + 1/2⌋`. -/
def jsRound (q : ℚ) : Int :=
  ⌊q + 1 / 2⌋

/-- `hexToRgba(hex)`: the hex string is modelled by its parsed `Rgb`
triple; the alpha channel is `Math.round(this.opacity * 255)`. -/
def hexToRgba (rgb : Rgb) (opacity : ℚ) : Color :=
  ⟨rgb.r, rgb.g, rgb.b, (jsRound (opacity * 255)).toNat⟩

/-- The tool enumeration (`this.currentTool`). -/
inductive Tool
  | pencil
  | brush
  | eraser
  | line
  | rectangle
  | circle
  | fill
  | text
  | eyedropper
  deriving DecidableEq, Repr

/-- `this.maxHistorySteps`, set in the constructor and never reassigned. -/
def maxHistorySteps : Nat := 50

/-- The mutable fields of the `DrawingMaster` instance that the raster
editing core reads and writes (the canvas raster is held as the current
`ImageData`; DOM/UI fields are out of scope). -/
structure AppState where
  isDrawing : Bool
  currentTool : Tool
  currentColor : Rgb
  brushSize : Nat
  opacity : ℚ
  startX : ℚ
  startY : ℚ
  endX : ℚ
  endY : ℚ
  canvas : ImageData
  history : List ImageData
  historyIndex : Int
  deriving DecidableEq, Repr

/-- JS array read `arr[i]` at a possibly-negative index, with a fallback
value.  Every call site in the core guards the index so that the fallback
is never exercised in a reachable state. -/
def nthSnap (h : List ImageData) (i : Int) (dflt : ImageData) : ImageData :=
  if 0 ≤ i then h.getD i.toNat dflt else dflt

/-- `saveState()`: evict the oldest entry (and decrement the cursor) when
`history.length > maxHistorySteps`, truncate to `[0, historyIndex+1)`,
append a snapshot of the current canvas, and point the cursor at the new
last entry. -/
def saveState (s : AppState) : AppState :=
  let s' := if s.history.length > maxHistorySteps then
      { s with history := s.history.tail, historyIndex := s.historyIndex - 1 }
    else s
  let imageData := s'.canvas
  let h := s'.history.take (s'.historyIndex + 1).toNat ++ [imageData]
  { s' with history := h, historyIndex := (h.length : Int) - 1 }

/-- `undo()`: when the cursor is positive, decrement it and repaint the
canvas from the snapshot at the new cursor. -/
def undo (s : AppState) : AppState :=
  if 0 < s.historyIndex then
    { s with historyIndex := s.historyIndex - 1,
             canvas := nthSnap s.history (s.historyIndex - 1) s.canvas }
  else s

/-- `redo()`: when the cursor is below the last index, increment it and
repaint the canvas from the snapshot at the new cursor. -/
def redo (s : AppState) : AppState :=
  if s.historyIndex < (s.history.length : Int) - 1 then
    { s with historyIndex := s.historyIndex + 1,
             canvas := nthSnap s.history (s.historyIndex + 1) s.canvas }
  else s

/-- `redrawCanvas()`: repaint from the snapshot under the cursor (used as
the base frame of the shape previews). -/
def redrawCanvas (s : AppState) : AppState :=
  if s.history.length > 0 ∧ 0 ≤ s.historyIndex then
    { s with canvas := nthSnap s.history s.historyIndex s.canvas }
  else s

/-- The cursor invariant of §3 of the spec: `0 ≤ cursor ≤ length - 1`
(which forces the sequence to be non-empty). -/
def histInv (s : AppState) : Prop :=
  0 ≤ s.historyIndex ∧ s.historyIndex ≤ (s.history.length : Int) - 1

/-- Scenario driver: make each canvas of `cs` current in turn and push it
with `saveState` ("pushing a sequence of snapshots"). -/
def pushCanvases (cs : List ImageData) (s : AppState) : AppState :=
  cs.foldl (fun st c => saveState { st with canvas := c }) s

/-- The in-bounds coordinate grid of a buffer (used as the termination
measure of the flood-fill loop: `visited` only ever grows inside it). -/
def gridOf (img : ImageData) : Finset (Nat × Nat) :=
  Finset.range img.width ×ˢ Finset.range img.height

/-- The `while (stack.length > 0)` loop of `floodFill`: pop a coordinate;
skip it when out of bounds, already visited, or not matching
`targetColor`; otherwise mark it visited, overwrite it with `fillColor`
and push its four N/S/E/W neighbours.  The JS `Set` of `"x,y"` string
keys is a `Finset` of pairs; `pop`/`push` act on the list head, so the
neighbours appear in the source's pop order. -/
def floodFillLoop (img : ImageData) (targetColor fillColor : Color)
    (visited : Finset (Nat × Nat)) (stack : List (Int × Int)) : ImageData :=
  match stack with
  | [] => img
  | (currentX, currentY) :: rest =>
    if currentX < 0 ∨ (img.width : Int) ≤ currentX ∨
        currentY < 0 ∨ (img.height : Int) ≤ currentY then
      floodFillLoop img targetColor fillColor visited rest
    else
      let p : Nat × Nat := (currentX.toNat, currentY.toNat)
      if p ∈ visited then
        floodFillLoop img targetColor fillColor visited rest
      else if colorsEqual (getPixelColor img p.1 p.2) targetColor then
        floodFillLoop (setPixelColor img p.1 p.2 fillColor) targetColor fillColor
          (insert p visited)
          ((currentX, currentY - 1) :: (currentX, currentY + 1) ::
            (currentX - 1, currentY) :: (currentX + 1, currentY) :: rest)
      else
        floodFillLoop img targetColor fillColor visited rest
termination_by ((gridOf img \ visited).card, stack.length)
decreasing_by
  · exact Prod.Lex.right _ (Nat.lt_succ_self _)
  · exact Prod.Lex.right _ (Nat.lt_succ_self _)
  · apply Prod.Lex.left
    apply Finset.card_lt_card
    constructor
    · intro q hq
      simp only [Finset.mem_sdiff, Finset.mem_insert] at hq ⊢
      exact ⟨hq.1, fun h => hq.2 (Or.inr h)⟩
    · intro hsub
      have hp : p ∈ gridOf img \ visited := by
        simp only [gridOf, Finset.mem_sdiff, Finset.mem_product, Finset.mem_range]
        refine ⟨⟨?_, ?_⟩, by assumption⟩
        · omega
        · omega
      have := hsub hp
      simp at this
  · exact Prod.Lex.right _ (Nat.lt_succ_self _)

/-- `floodFill(imageData, x, y, targetColor, fillColor)`: run the loop
from the seed as the only stack entry and an empty visited set. -/
def floodFill (img : ImageData) (x y : Int) (targetColor fillColor : Color) : ImageData :=
  floodFillLoop img targetColor fillColor ∅ [(x, y)]

/-- Step-indexed reading of the same `while` loop: one unit of fuel per
iteration, `none` when the fuel runs out before the stack empties.  Used
to state that the source loop terminates. -/
def floodFillFuel (fuel : Nat) (img : ImageData) (targetColor fillColor : Color)
    (visited : Finset (Nat × Nat)) (stack : List (Int × Int)) : Option ImageData :=
  match fuel with
  | 0 => none
  | fuel + 1 =>
    match stack with
    | [] => some img
    | (currentX, currentY) :: rest =>
      if currentX < 0 ∨ (img.width : Int) ≤ currentX ∨
          currentY < 0 ∨ (img.height : Int) ≤ currentY then
        floodFillFuel fuel img targetColor fillColor visited rest
      else
        let p : Nat × Nat := (currentX.toNat, currentY.toNat)
        if p ∈ visited then
          floodFillFuel fuel img targetColor fillColor visited rest
        else if colorsEqual (getPixelColor img p.1 p.2) targetColor then
          floodFillFuel fuel (setPixelColor img p.1 p.2 fillColor) targetColor fillColor
            (insert p visited)
            ((currentX, currentY - 1) :: (currentX, currentY + 1) ::
              (currentX - 1, currentY) :: (currentX + 1, currentY) :: rest)
        else
          floodFillFuel fuel img targetColor fillColor visited rest

/-- `handleFloodFill(pos)`: sample the target color under the (floored)
cursor, derive the fill color from the active stroke color and opacity,
return without any write when the two are equal, otherwise fill and push
one history snapshot. -/
def handleFloodFill (s : AppState) (px py : ℚ) : AppState :=
  let imageData := s.canvas
  let targetColor := getPixelColor imageData (⌊px⌋).toNat (⌊py⌋).toNat
  let fillColor := hexToRgba s.currentColor s.opacity
  if colorsEqual targetColor fillColor then
    s
  else
    let imageData' := floodFill imageData ⌊px⌋ ⌊py⌋ targetColor fillColor
    saveState { s with canvas := imageData' }

/-- `handleColorPicker(pos)`: sample the single pixel under the cursor
and make it the active stroke color (the `rgbaToHex`/re-parse round trip
of the source is modelled by keeping the sampled triple). -/
def handleColorPicker (s : AppState) (px py : ℚ) : AppState :=
  let c := getPixelColor s.canvas (⌊px⌋).toNat (⌊py⌋).toNat
  { s with currentColor := ⟨c.r, c.g, c.b⟩ }

/-- JS `String.prototype.trim` on the ASCII whitespace the core ever
sees: drop whitespace from both ends. -/
def jsTrim (t : String) : String :=
  ⟨((t.data.dropWhile Char.isWhitespace).reverse.dropWhile Char.isWhitespace).reverse⟩

/-- The external drawing primitives of the 2D context, §6 of the spec
(path rasterization, rectangle/circle outlines, text).  The gesture
handlers below are parameterized over them, so the theorems hold for an
arbitrary renderer.  Stroke style, global alpha and composite mode
(`setupDrawingContext`) are context state internal to these collaborators. -/
structure CanvasOps where
  /-- `ctx.lineTo(pos.x, pos.y); ctx.stroke()` extending the current path. -/
  strokeTo : ImageData → ℚ → ℚ → ImageData
  /-- `moveTo(startX,startY); lineTo(endX,endY); stroke()`. -/
  strokeLine : ImageData → ℚ → ℚ → ℚ → ℚ → ImageData
  /-- `ctx.strokeRect(startX, startY, endX-startX, endY-startY)`. -/
  strokeRect : ImageData → ℚ → ℚ → ℚ → ℚ → ImageData
  /-- `ctx.arc` centred at the anchor, radius the Euclidean distance from
  anchor to endpoint (computed by the renderer), then `stroke()`. -/
  strokeCircleFrom : ImageData → ℚ → ℚ → ℚ → ℚ → ImageData
  /-- `ctx.fillText(text, x, y)` with `font = (brushSize*3)px Arial`. -/
  fillTextAt : ImageData → String → ℚ → ℚ → Nat → ImageData

/-- The three phases of `executeToolAction` (`'start'`, `'move'`,
`'end'`; the last is spelled `stop` here). -/
inductive Phase
  | start
  | move
  | stop
  deriving DecidableEq, Repr

/-- `handleTextTool(pos)`: `prompt('Enter text:')` is the modal external
input, its result passed in as `none` (cancelled) or `some text`.  Only a
string that is truthy and has a truthy `trim()` is rendered and followed
by one `saveState()`. -/
def handleTextTool (ops : CanvasOps) (s : AppState) (pos : ℚ × ℚ)
    (promptResult : Option String) : AppState :=
  match promptResult with
  | none => s
  | some text =>
    if text ≠ "" ∧ jsTrim text ≠ "" then
      saveState { s with
        canvas := ops.fillTextAt s.canvas text pos.1 pos.2 (s.brushSize * 3) }
    else s

/-- `handleFreeDrawing(pos, phase)`: begin a path at the anchor, extend
and stroke it on every move (the path accumulator lives in the context). -/
def handleFreeDrawing (ops : CanvasOps) (s : AppState) (pos : ℚ × ℚ)
    (phase : Phase) : AppState :=
  match phase with
  | .start => s
  | .move => { s with canvas := ops.strokeTo s.canvas pos.1 pos.2 }
  | .stop => s

/-- `handleEraser(pos, phase)`: same path mechanics as free drawing; the
destination-out compositing is context state set by `setupDrawingContext`. -/
def handleEraser (ops : CanvasOps) (s : AppState) (pos : ℚ × ℚ)
    (phase : Phase) : AppState :=
  match phase with
  | .start => s
  | .move => { s with canvas := ops.strokeTo s.canvas pos.1 pos.2 }
  | .stop => s

/-- `handleLineDrawing`: on move, restore the base snapshot
(`redrawCanvas`) then draw the preview; on end, draw the committed line. -/
def handleLineDrawing (ops : CanvasOps) (s : AppState) (phase : Phase) : AppState :=
  match phase with
  | .start => s
  | .move =>
    let s' := redrawCanvas s
    { s' with canvas := ops.strokeLine s'.canvas s'.startX s'.startY s'.endX s'.endY }
  | .stop =>
    { s with canvas := ops.strokeLine s.canvas s.startX s.startY s.endX s.endY }

/-- `handleRectangleDrawing`: restore-then-preview on move, commit on end. -/
def handleRectangleDrawing (ops : CanvasOps) (s : AppState) (phase : Phase) : AppState :=
  match phase with
  | .start => s
  | .move =>
    let s' := redrawCanvas s
    { s' with canvas := ops.strokeRect s'.canvas s'.startX s'.startY s'.endX s'.endY }
  | .stop =>
    { s with canvas := ops.strokeRect s.canvas s.startX s.startY s.endX s.endY }

/-- `handleCircleDrawing`: restore-then-preview on move, commit on end. -/
def handleCircleDrawing (ops : CanvasOps) (s : AppState) (phase : Phase) : AppState :=
  match phase with
  | .start => s
  | .move =>
    let s' := redrawCanvas s
    { s' with canvas := ops.strokeCircleFrom s'.canvas s'.startX s'.startY s'.endX s'.endY }
  | .stop =>
    { s with canvas := ops.strokeCircleFrom s.canvas s.startX s.startY s.endX s.endY }

/-- `executeToolAction(pos, phase)`: the closed tool switch. -/
def executeToolAction (ops : CanvasOps) (s : AppState) (pos : ℚ × ℚ)
    (phase : Phase) (promptResult : Option String) : AppState :=
  match s.currentTool with
  | .pencil => handleFreeDrawing ops s pos phase
  | .brush => handleFreeDrawing ops s pos phase
  | .eraser => handleEraser ops s pos phase
  | .line => handleLineDrawing ops s phase
  | .rectangle => handleRectangleDrawing ops s phase
  | .circle => handleCircleDrawing ops s phase
  | .fill => if phase = .start then handleFloodFill s pos.1 pos.2 else s
  | .eyedropper => if phase = .start then handleColorPicker s pos.1 pos.2 else s
  | .text => if phase = .start then handleTextTool ops s pos promptResult else s

/-- `handleMouseDown`: set `isDrawing`, record the anchor (and endpoint),
configure the context (`setupDrawingContext`, context-internal), dispatch
the `'start'` phase. -/
def handleMouseDown (ops : CanvasOps) (s : AppState) (px py : ℚ)
    (promptResult : Option String) : AppState :=
  let s1 := { s with isDrawing := true, startX := px, startY := py, endX := px, endY := py }
  executeToolAction ops s1 (px, py) .start promptResult

/-- `handleMouseMove`: while drawing, update the endpoint and dispatch
the `'move'` phase. -/
def handleMouseMove (ops : CanvasOps) (s : AppState) (px py : ℚ) : AppState :=
  if s.isDrawing then
    let s1 := { s with endX := px, endY := py }
    executeToolAction ops s1 (px, py) .move none
  else s

/-- `handleMouseUp`: if a gesture is active, clear `isDrawing`, dispatch
the `'end'` phase, then push a snapshot unless the active tool is
`eyedropper` or `fill`. -/
def handleMouseUp (ops : CanvasOps) (s : AppState) (px py : ℚ) : AppState :=
  if s.isDrawing then
    let s1 := { s with isDrawing := false }
    let s2 := executeToolAction ops s1 (px, py) .stop none
    if s2.currentTool = .eyedropper ∨ s2.currentTool = .fill then s2
    else saveState s2
  else s

/-- A complete one-position text gesture: pointer press (which runs the
modal prompt) followed by pointer release at the same point. -/
def textGesture (ops : CanvasOps) (s : AppState) (px py : ℚ)
    (promptResult : Option String) : AppState :=
  handleMouseUp ops (handleMouseDown ops s px py promptResult) px py

/-- A coordinate is inside the buffer. -/
def inBoundsP (img : ImageData) (p : Nat × Nat) : Prop :=
  p.1 < img.width ∧ p.2 < img.height

/-- 4-directional (N/S/E/W) adjacency of two grid coordinates. -/
def adjacent (p q : Nat × Nat) : Prop :=
  (q.1 = p.1 + 1 ∧ q.2 = p.2) ∨ (p.1 = q.1 + 1 ∧ q.2 = p.2) ∨
  (q.2 = p.2 + 1 ∧ q.1 = p.1) ∨ (p.2 = q.2 + 1 ∧ q.1 = p.1)

/-- The region a flood fill must recolor: pixels reachable from the seed
through a 4-connected chain of in-bounds pixels whose color in the
*original* buffer equals `targetColor` exactly (the seed included). -/
inductive Reachable (img : ImageData) (targetColor : Color) (seed : Nat × Nat) :
    Nat × Nat → Prop
  | refl : inBoundsP img seed → getPixelColor img seed.1 seed.2 = targetColor →
      Reachable img targetColor seed seed
  | step {p q : Nat × Nat} : Reachable img targetColor seed p → adjacent p q →
      inBoundsP img q → getPixelColor img q.1 q.2 = targetColor →
      Reachable img targetColor seed q

/-- A concrete 1×1 snapshot, colored by its sequence number (used in the
concrete history scenarios). -/
def demoCanvas (n : Nat) : ImageData :=
  ⟨1, 1, [⟨n, 0, 0, 255⟩]⟩

/-- `maxHistorySteps + 5` pairwise distinct snapshots. -/
def demoCanvases : List ImageData :=
  (List.range (maxHistorySteps + 5)).map demoCanvas

/-- The constructor state as far as the core is concerned: empty history,
cursor `-1`, pencil tool, black color, size 5, opacity 1. -/
def emptyHistoryState : AppState :=
  { isDrawing := false, currentTool := .pencil, currentColor := ⟨0, 0, 0⟩,
    brushSize := 5, opacity := 1, startX := 0, startY := 0, endX := 0, endY := 0,
    canvas := demoCanvas 0, history := [], historyIndex := -1 }

/-- A state about to receive a text-tool gesture: text tool active, one
blank snapshot in the history, cursor on it. -/
def textToolState : AppState :=
  { isDrawing := false, currentTool := .text, currentColor := ⟨0, 0, 0⟩,
    brushSize := 5, opacity := 1, startX := 0, startY := 0, endX := 0, endY := 0,
    canvas := demoCanvas 0, history := [demoCanvas 0], historyIndex := 0 }

/-- One snapshot in the history, cursor on it. -/
def oneHistState : AppState :=
  { emptyHistoryState with history := [demoCanvas 0], historyIndex := 0 }

/-- Two snapshots in the history, cursor on the newest. -/
def twoHistState : AppState :=
  { emptyHistoryState with
      canvas := demoCanvas 1, history := [demoCanvas 0, demoCanvas 1], historyIndex := 1 }

/-- Three snapshots with the cursor moved back to the oldest (as after
undoing twice), and a freshly drawn canvas about to be pushed. -/
def backHistState : AppState :=
  { emptyHistoryState with
      canvas := demoCanvas 3, history := [demoCanvas 0, demoCanvas 1, demoCanvas 2],
      historyIndex := 0 }

/-- A 3×1 buffer: two white pixels separated by a dark one — two disjoint
white regions. -/
def demoStripes : ImageData :=
  ⟨3, 1, [⟨255, 255, 255, 255⟩, ⟨9, 9, 9, 255⟩, ⟨255, 255, 255, 255⟩]⟩

/-! ## History manager lemmas -/

/-- One push when the sequence is within capacity and the cursor is on the
last entry: the snapshot is appended, nothing is evicted. -/
theorem saveState_append (s : AppState) (c : ImageData)
    (hidx : s.historyIndex = (s.history.length : Int) - 1)
    (hlen : s.history.length ≤ maxHistorySteps) :
    saveState { s with canvas := c } =
      { s with canvas := c, history := s.history ++ [c],
               historyIndex := (s.history.length : Int) } := by
  have hnot : ¬ (s.history.length > maxHistorySteps) := by omega
  have htn : (s.historyIndex + 1).toNat = s.history.length := by omega
  simp only [saveState, hnot, if_false, htn, List.take_length, List.length_append,
    List.length_singleton]
  congr 1
  omega

/-- One push when the sequence has overflowed to capacity+1 entries with
the cursor on the last entry: the oldest entry is evicted, then the
snapshot is appended. -/
theorem saveState_evict (s : AppState) (c : ImageData)
    (hidx : s.historyIndex = (s.history.length : Int) - 1)
    (hlen : s.history.length = maxHistorySteps + 1) :
    saveState { s with canvas := c } =
      { s with canvas := c, history := s.history.tail ++ [c],
               historyIndex := (maxHistorySteps : Int) } := by
  have hgt : s.history.length > maxHistorySteps := by omega
  have htl : s.history.tail.length = maxHistorySteps := by
    simp [List.length_tail, hlen]
  have htn : (s.historyIndex - 1 + 1).toNat = s.history.tail.length := by
    rw [htl]; omega
  simp only [saveState, hgt, if_true, htn, List.take_length, List.length_append,
    List.length_singleton]
  congr 1
  omega

/-- Iterated pushes: starting from a cursor on the last entry of a
sequence of at most capacity+1 entries, pushing the canvases of `cs` in
order leaves exactly the last `maxHistorySteps + 1` of the concatenated
sequence, with the cursor on its last entry. -/
theorem pushCanvases_spec (cs : List ImageData) (s : AppState)
    (hidx : s.historyIndex = (s.history.length : Int) - 1)
    (hlen : s.history.length ≤ maxHistorySteps + 1) :
    (pushCanvases cs s).history
        = (s.history ++ cs).drop (s.history.length + cs.length - (maxHistorySteps + 1)) ∧
    (pushCanvases cs s).historyIndex
        = ((pushCanvases cs s).history.length : Int) - 1 := by
  induction cs generalizing s with
  | nil =>
    have h0 : s.history.length - (maxHistorySteps + 1) = 0 := by omega
    simp [pushCanvases, h0, hidx]
  | cons c cs ih =>
    have hstep : pushCanvases (c :: cs) s
        = pushCanvases cs (saveState { s with canvas := c }) := by
      simp [pushCanvases]
    by_cases hc : s.history.length ≤ maxHistorySteps
    · rw [hstep, saveState_append s c hidx hc]
      have hrec := ih
        ({ s with canvas := c, history := s.history ++ [c],
                  historyIndex := (s.history.length : Int) })
        (by simp) (by simp; omega)
      simp only [List.append_assoc, List.singleton_append, List.length_append,
        List.length_singleton, List.length_cons, List.length_nil] at hrec ⊢
      refine ⟨?_, hrec.2⟩
      rw [hrec.1]
      congr 1
      omega
    · have hlen' : s.history.length = maxHistorySteps + 1 := by omega
      rw [hstep, saveState_evict s c hidx hlen']
      have hrec := ih
        ({ s with canvas := c, history := s.history.tail ++ [c],
                  historyIndex := (maxHistorySteps : Int) })
        (by simp [List.length_tail, hlen']) (by simp [List.length_tail, hlen'])
      obtain ⟨hd, tl, hht⟩ : ∃ hd tl, s.history = hd :: tl := by
        cases hh : s.history with
        | nil => rw [hh] at hlen'; simp [maxHistorySteps] at hlen'
        | cons a b => exact ⟨a, b, rfl⟩
      refine ⟨?_, hrec.2⟩
      rw [hrec.1, hht]
      have htll : tl.length = maxHistorySteps := by
        rw [hht] at hlen'; simp at hlen'; omega
      simp only [List.tail_cons, List.append_assoc, List.singleton_append,
        List.cons_append, List.length_append, List.length_cons, List.length_nil]
      have h1 : tl.length + (0 + 1) + cs.length - (maxHistorySteps + 1) = cs.length := by
        omega
      have h2 : tl.length + 1 + (cs.length + 1) - (maxHistorySteps + 1) = cs.length + 1 := by
        omega
      rw [h1, h2, List.drop_succ_cons]
      simp

/-- C1 (counterexample): pushing `maxHistorySteps + 5 = 55` distinct
snapshots into an empty history does *not* leave 50 entries with the
cursor at 49: the eviction check `length > maxHistorySteps` runs before
the append, so the sequence stabilizes at 51 entries. -/
theorem history_bound_claim_false :
    ¬ ((pushCanvases demoCanvases emptyHistoryState).history.length = maxHistorySteps ∧
       (pushCanvases demoCanvases emptyHistoryState).historyIndex
          = (maxHistorySteps : Int) - 1) := by
  intro hcl
  have h := pushCanvases_spec demoCanvases emptyHistoryState
    (by simp [emptyHistoryState]) (by simp [emptyHistoryState])
  have hlen : demoCanvases.length = maxHistorySteps + 5 := by
    simp [demoCanvases]
  have h51 : (pushCanvases demoCanvases emptyHistoryState).history.length
      = maxHistorySteps + 1 := by
    rw [h.1]
    simp only [emptyHistoryState, List.nil_append, List.length_nil, List.length_drop, hlen]
    omega
  rw [hcl.1] at h51
  simp [maxHistorySteps] at h51

/-- C1 (amended): pushing `maxHistorySteps + 5` snapshots into an empty
history leaves the sequence at `maxHistorySteps + 1 = 51` entries, the
cursor at `maxHistorySteps = 50`, and the oldest 4 snapshots evicted. -/
theorem history_bound_amended (cs : List ImageData) (s : AppState)
    (h0 : s.history = []) (hidx : s.historyIndex = -1)
    (hn : cs.length = maxHistorySteps + 5) :
    (pushCanvases cs s).history = cs.drop 4 ∧
    (pushCanvases cs s).history.length = maxHistorySteps + 1 ∧
    (pushCanvases cs s).historyIndex = (maxHistorySteps : Int) := by
  have h := pushCanvases_spec cs s (by rw [h0, hidx]; simp) (by rw [h0]; simp)
  rw [h0] at h
  simp only [List.nil_append, List.length_nil, Nat.zero_add] at h
  have hd4 : cs.length - (maxHistorySteps + 1) = 4 := by omega
  rw [hd4] at h
  have hlen : (pushCanvases cs s).history.length = maxHistorySteps + 1 := by
    rw [h.1, List.length_drop]
    omega
  refine ⟨h.1, hlen, ?_⟩
  rw [h.2, hlen]
  omega

/-- C4: from a cursor on the last of at least two entries, `undo()` then
`redo()` restores the pre-undo cursor and repaints from the snapshot that
was current before the undo (the entry at the pre-undo cursor), leaving
the sequence untouched. -/
theorem undo_redo_inverse (s : AppState)
    (hcur : s.historyIndex = (s.history.length : Int) - 1)
    (hlen : 2 ≤ s.history.length) :
    (redo (undo s)).historyIndex = s.historyIndex ∧
    (redo (undo s)).history = s.history ∧
    ∀ snap, s.history.get? (s.history.length - 1) = some snap →
      (redo (undo s)).canvas = snap := by
  have h1 : 0 < s.historyIndex := by omega
  have hu : undo s =
      { s with historyIndex := s.historyIndex - 1,
               canvas := nthSnap s.history (s.historyIndex - 1) s.canvas } := by
    rw [undo, if_pos h1]
  have h2 : (undo s).historyIndex < ((undo s).history.length : Int) - 1 := by
    rw [hu]; simp; omega
  have hr : redo (undo s) =
      { undo s with historyIndex := (undo s).historyIndex + 1,
                    canvas := nthSnap (undo s).history ((undo s).historyIndex + 1) (undo s).canvas } := by
    rw [redo, if_pos h2]
  refine ⟨?_, ?_, ?_⟩
  · rw [hr, hu]; simp
  · rw [hr, hu]
  · intro snap hsnap
    rw [hr, hu]
    simp only [nthSnap]
    have hge : (0 : Int) ≤ s.historyIndex - 1 + 1 := by omega
    rw [if_pos hge]
    have htn : (s.historyIndex - 1 + 1).toNat = s.history.length - 1 := by omega
    rw [htn, List.getD, hsnap]
    rfl

/-- C5: `undo()` with the cursor at 0 and `redo()` with the cursor on the
last entry are silent no-ops: the whole state (cursor, sequence, canvas)
is returned unchanged. -/
theorem undo_redo_boundary_noop (s : AppState) :
    (s.historyIndex = 0 → undo s = s) ∧
    (s.historyIndex = (s.history.length : Int) - 1 → redo s = s) := by
  constructor
  · intro h
    rw [undo, if_neg (by omega)]
  · intro h
    rw [redo, if_neg (by omega)]

/-- C6: after any `saveState()`, the cursor is on the last entry, every
entry but the appended one comes from a position at or before the
pre-push cursor (the redo branch is pruned), and `redo()` is a no-op. -/
theorem push_prunes_redo_branch (s : AppState) :
    (saveState s).historyIndex = ((saveState s).history.length : Int) - 1 ∧
    (∀ i : Nat, i < (saveState s).history.length - 1 →
      ∃ j : Nat, (j : Int) ≤ s.historyIndex ∧
        (saveState s).history.get? i = s.history.get? j) ∧
    redo (saveState s) = saveState s := by
  refine ⟨?_, ?_, ?_⟩
  · by_cases hc : s.history.length > maxHistorySteps <;> simp [saveState, hc]
  · intro i hi
    by_cases hc : s.history.length > maxHistorySteps
    · simp only [saveState, hc, if_true, List.length_append, List.length_singleton,
        Nat.add_sub_cancel] at hi ⊢
      have hik : i < (s.historyIndex - 1 + 1).toNat :=
        lt_of_lt_of_le hi (List.length_take_le _ _)
      refine ⟨i + 1, by omega, ?_⟩
      rw [List.get?_append hi, List.get?_take hik]
      cases hh : s.history with
      | nil => rw [hh] at hi; simp at hi
      | cons a l => simp [hh]
    · simp only [saveState, hc, if_false, List.length_append, List.length_singleton,
        Nat.add_sub_cancel] at hi ⊢
      have hik : i < (s.historyIndex + 1).toNat :=
        lt_of_lt_of_le hi (List.length_take_le _ _)
      refine ⟨i, by omega, ?_⟩
      rw [List.get?_append hi, List.get?_take hik]
  · have hend : (saveState s).historyIndex = ((saveState s).history.length : Int) - 1 := by
      by_cases hc : s.history.length > maxHistorySteps <;> simp [saveState, hc]
    rw [redo, if_neg (by omega)]

/-- C7: the cursor invariant `0 ≤ historyIndex ≤ length - 1` is
(re-)established by every `saveState()` and preserved by `undo()` and
`redo()`. -/
theorem history_cursor_invariant (s : AppState) :
    histInv (saveState s) ∧ (histInv s → histInv (undo s) ∧ histInv (redo s)) := by
  refine ⟨?_, fun hinv => ⟨?_, ?_⟩⟩
  · by_cases hc : s.history.length > maxHistorySteps <;>
      simp [saveState, hc, histInv] <;> omega
  · obtain ⟨hlo, hhi⟩ := hinv
    by_cases hp : 0 < s.historyIndex
    · rw [undo, if_pos hp]
      constructor <;> simp <;> omega
    · rw [undo, if_neg hp]
      exact ⟨hlo, hhi⟩
  · obtain ⟨hlo, hhi⟩ := hinv
    by_cases hp : s.historyIndex < (s.history.length : Int) - 1
    · rw [redo, if_pos hp]
      constructor <;> simp <;> omega
    · rw [redo, if_neg hp]
      exact ⟨hlo, hhi⟩

/-! ## Pixel buffer lemmas -/

/-- `colorsEqual` decides exact 4-channel equality. -/
theorem colorsEqual_iff (c₁ c₂ : Color) : colorsEqual c₁ c₂ = true ↔ c₁ = c₂ := by
  cases c₁
  cases c₂
  simp [colorsEqual, Color.mk.injEq, Bool.and_eq_true, beq_iff_eq, and_assoc]

/-- The linear index of an in-bounds pixel is inside a well-formed buffer. -/
theorem pixIndex_lt {w h x y : Nat} (hx : x < w) (hy : y < h) :
    y * w + x < w * h := by
  have h1 : y * w + x < (y + 1) * w := by
    rw [Nat.succ_mul]
    omega
  have h2 : (y + 1) * w ≤ h * w := Nat.mul_le_mul_right w hy
  rw [Nat.mul_comm w h]
  omega

/-- Distinct in-bounds pixels have distinct linear indices. -/
theorem pixIndex_inj {w : Nat} {x₁ y₁ x₂ y₂ : Nat} (h1 : x₁ < w) (h2 : x₂ < w)
    (he : y₁ * w + x₁ = y₂ * w + x₂) : x₁ = x₂ ∧ y₁ = y₂ := by
  have hw : 0 < w := lt_of_le_of_lt (Nat.zero_le _) h1
  have hm1 : (y₁ * w + x₁) % w = x₁ := by
    rw [Nat.add_comm, Nat.add_mul_mod_self_right, Nat.mod_eq_of_lt h1]
  have hm2 : (y₂ * w + x₂) % w = x₂ := by
    rw [Nat.add_comm, Nat.add_mul_mod_self_right, Nat.mod_eq_of_lt h2]
  have hd1 : (y₁ * w + x₁) / w = y₁ := by
    rw [Nat.add_comm, Nat.add_mul_div_right _ _ hw, Nat.div_eq_of_lt h1]
    omega
  have hd2 : (y₂ * w + x₂) / w = y₂ := by
    rw [Nat.add_comm, Nat.add_mul_div_right _ _ hw, Nat.div_eq_of_lt h2]
    omega
  constructor
  · rw [← hm1, ← hm2, he]
  · rw [← hd1, ← hd2, he]

/-- `setPixelColor` does not change the buffer dimensions or size. -/
theorem setPixelColor_dims (img : ImageData) (x y : Nat) (c : Color) :
    (setPixelColor img x y c).width = img.width ∧
    (setPixelColor img x y c).height = img.height ∧
    (setPixelColor img x y c).data.length = img.data.length := by
  refine ⟨rfl, rfl, ?_⟩
  simp [setPixelColor]

/-- Reading back the pixel just written, inside a well-formed buffer. -/
theorem getPixelColor_set_self (img : ImageData) (x y : Nat) (c : Color)
    (hwf : img.data.length = img.width * img.height)
    (hx : x < img.width) (hy : y < img.height) :
    getPixelColor (setPixelColor img x y c) x y = c := by
  have hidx : y * img.width + x < img.data.length := by
    rw [hwf]
    exact pixIndex_lt hx hy
  simp [getPixelColor, setPixelColor, List.getD_eq_getElem?_getD, List.getElem?_set_eq hidx]

/-- Writing one in-bounds pixel leaves every other in-bounds pixel alone. -/
theorem getPixelColor_set_other (img : ImageData) (x y x' y' : Nat) (c : Color)
    (hx : x < img.width) (hx' : x' < img.width)
    (hne : (x', y') ≠ (x, y)) :
    getPixelColor (setPixelColor img x y c) x' y' = getPixelColor img x' y' := by
  have hidx : y * img.width + x ≠ y' * img.width + x' := by
    intro he
    obtain ⟨hxe, hye⟩ := pixIndex_inj hx hx' he
    exact hne (by rw [hxe, hye])
  simp [getPixelColor, setPixelColor, List.getD_eq_getElem?_getD, List.getElem?_set_ne hidx]

theorem floodFillLoop_spec :
    ∀ (img : ImageData) (targetColor fillColor : Color)
      (visited : Finset (Nat × Nat)) (stack : List (Int × Int))
      (img₀ : ImageData) (seed : Nat × Nat),
      img₀.data.length = img₀.width * img₀.height →
      inBoundsP img₀ seed →
      img.width = img₀.width → img.height = img₀.height →
      img.data.length = img₀.data.length →
      (∀ p : Nat × Nat, inBoundsP img₀ p →
          getPixelColor img p.1 p.2
            = if p ∈ visited then fillColor else getPixelColor img₀ p.1 p.2) →
      (∀ p ∈ visited, inBoundsP img₀ p ∧ Reachable img₀ targetColor seed p) →
      (∀ e ∈ stack, 0 ≤ e.1 → e.1 < (img₀.width : Int) → 0 ≤ e.2 →
          e.2 < (img₀.height : Int) →
          getPixelColor img₀ e.1.toNat e.2.toNat = targetColor →
          Reachable img₀ targetColor seed (e.1.toNat, e.2.toNat)) →
      (∀ p ∈ visited, ∀ q : Nat × Nat, adjacent p q → inBoundsP img₀ q →
          getPixelColor img₀ q.1 q.2 = targetColor →
          q ∈ visited ∨ ((q.1 : Int), (q.2 : Int)) ∈ stack) →
      (getPixelColor img₀ seed.1 seed.2 = targetColor →
          seed ∈ visited ∨ ((seed.1 : Int), (seed.2 : Int)) ∈ stack) →
      ∀ p : Nat × Nat, inBoundsP img₀ p →
        (Reachable img₀ targetColor seed p →
            getPixelColor (floodFillLoop img targetColor fillColor visited stack) p.1 p.2
              = fillColor) ∧
        (¬ Reachable img₀ targetColor seed p →
            getPixelColor (floodFillLoop img targetColor fillColor visited stack) p.1 p.2
              = getPixelColor img₀ p.1 p.2) := by
  intro img targetColor fillColor visited stack
  induction img, targetColor, fillColor, visited, stack using floodFillLoop.induct with
  | case1 img t f visited =>
    intro img₀ seed hwf hseed hw hh hlen hbuf hvis hstk hclo hsd p hp
    rw [floodFillLoop]
    have hreachvis : ∀ q, Reachable img₀ t seed q → q ∈ visited := by
      intro q hq
      induction hq with
      | refl hb hm =>
        rcases hsd hm with h | h
        · exact h
        · simp at h
      | step hr hadj hbq hmq ih2 =>
        rcases hclo _ ih2 _ hadj hbq hmq with h | h
        · exact h
        · simp at h
    constructor
    · intro hreach
      rw [hbuf p hp, if_pos (hreachvis p hreach)]
    · intro hnreach
      have hnv : p ∉ visited := fun hv => hnreach (hvis p hv).2
      rw [hbuf p hp, if_neg hnv]
  | case2 img t f visited cx cy rest hoob ih =>
    intro img₀ seed hwf hseed hw hh hlen hbuf hvis hstk hclo hsd
    have hstep : floodFillLoop img t f visited ((cx, cy) :: rest)
        = floodFillLoop img t f visited rest := by
      rw [floodFillLoop]
      simp only [if_pos hoob]
    have hoob' : cx < 0 ∨ (img₀.width : Int) ≤ cx ∨ cy < 0 ∨ (img₀.height : Int) ≤ cy := by
      rw [← hw, ← hh]
      exact hoob
    have hne : ∀ q : Nat × Nat, inBoundsP img₀ q →
        ¬(((q.1 : Int), (q.2 : Int)) = (cx, cy)) := by
      intro q hbq heq
      have h1 : (q.1 : Int) = cx := congrArg Prod.fst heq
      have h2 : (q.2 : Int) = cy := congrArg Prod.snd heq
      obtain ⟨hb1, hb2⟩ := hbq
      omega
    simp only [hstep]
    refine ih img₀ seed hwf hseed hw hh hlen hbuf hvis ?_ ?_ ?_
    · intro e he
      exact hstk e (List.mem_cons_of_mem _ he)
    · intro p' hp' q hadj hbq hmq
      rcases hclo p' hp' q hadj hbq hmq with h | h
      · exact Or.inl h
      · rcases List.mem_cons.mp h with heq | hmem
        · exact absurd heq (hne q hbq)
        · exact Or.inr hmem
    · intro hm
      rcases hsd hm with h | h
      · exact Or.inl h
      · rcases List.mem_cons.mp h with heq | hmem
        · exact absurd heq (hne seed hseed)
        · exact Or.inr hmem
  | case3 img t f visited cx cy rest hoob p₀ hvisited ih =>
    intro img₀ seed hwf hseed hw hh hlen hbuf hvis hstk hclo hsd
    have hstep : floodFillLoop img t f visited ((cx, cy) :: rest)
        = floodFillLoop img t f visited rest := by
      rw [floodFillLoop]
      simp only [if_neg hoob, if_pos hvisited]
    have hkey : ∀ q : Nat × Nat, ((q.1 : Int), (q.2 : Int)) = (cx, cy) →
        q = ((cx.toNat, cy.toNat) : Nat × Nat) := by
      intro q heq
      have h1 : (q.1 : Int) = cx := congrArg Prod.fst heq
      have h2 : (q.2 : Int) = cy := congrArg Prod.snd heq
      exact Prod.ext (by omega) (by omega)
    simp only [hstep]
    refine ih img₀ seed hwf hseed hw hh hlen hbuf hvis ?_ ?_ ?_
    · intro e he
      exact hstk e (List.mem_cons_of_mem _ he)
    · intro p' hp' q hadj hbq hmq
      rcases hclo p' hp' q hadj hbq hmq with h | h
      · exact Or.inl h
      · rcases List.mem_cons.mp h with heq | hmem
        · exact Or.inl (by rw [hkey q heq]; exact hvisited)
        · exact Or.inr hmem
    · intro hm
      rcases hsd hm with h | h
      · exact Or.inl h
      · rcases List.mem_cons.mp h with heq | hmem
        · exact Or.inl (by rw [hkey seed heq]; exact hvisited)
        · exact Or.inr hmem
  | case4 img t f visited cx cy rest hoob p₀ hnotvis hmatch ih =>
    intro img₀ seed hwf hseed hw hh hlen hbuf hvis hstk hclo hsd
    have hp₀ : p₀ = ((cx.toNat, cy.toNat) : Nat × Nat) := rfl
    clear_value p₀
    subst hp₀
    have hstep : floodFillLoop img t f visited ((cx, cy) :: rest)
        = floodFillLoop (setPixelColor img cx.toNat cy.toNat f) t f
            (insert ((cx.toNat, cy.toNat) : Nat × Nat) visited)
            ((cx, cy - 1) :: (cx, cy + 1) :: (cx - 1, cy) :: (cx + 1, cy) :: rest) := by
      rw [floodFillLoop]
      simp only [if_neg hoob, if_neg hnotvis, if_pos hmatch]
    rw [hw, hh] at hoob
    have hcx0 : 0 ≤ cx := by omega
    have hcxw : cx < (img₀.width : Int) := by omega
    have hcy0 : 0 ≤ cy := by omega
    have hcyh : cy < (img₀.height : Int) := by omega
    have hb0 : inBoundsP img₀ ((cx.toNat, cy.toNat) : Nat × Nat) := by
      constructor
      · dsimp only
        omega
      · dsimp only
        omega
    have hcur := hbuf ((cx.toNat, cy.toNat) : Nat × Nat) hb0
    rw [if_neg hnotvis] at hcur
    have hmatch₀ : getPixelColor img₀ cx.toNat cy.toNat = t := by
      rw [← hcur]
      exact (colorsEqual_iff _ _).mp hmatch
    have hreach₀ : Reachable img₀ t seed ((cx.toNat, cy.toNat) : Nat × Nat) :=
      hstk (cx, cy) (List.mem_cons_self _ _) hcx0 hcxw hcy0 hcyh hmatch₀
    have hkey : ∀ q : Nat × Nat, ((q.1 : Int), (q.2 : Int)) = (cx, cy) →
        q = ((cx.toNat, cy.toNat) : Nat × Nat) := by
      intro q heq
      have h1 : (q.1 : Int) = cx := congrArg Prod.fst heq
      have h2 : (q.2 : Int) = cy := congrArg Prod.snd heq
      exact Prod.ext (by omega) (by omega)
    have himgwf : img.data.length = img.width * img.height := by
      rw [hlen, hw, hh]
      exact hwf
    have hlen2 : (setPixelColor img cx.toNat cy.toNat f).data.length = img₀.data.length := by
      simpa [setPixelColor] using hlen
    have hbuf' : ∀ q : Nat × Nat, inBoundsP img₀ q →
        getPixelColor (setPixelColor img cx.toNat cy.toNat f) q.1 q.2
          = if q ∈ insert ((cx.toNat, cy.toNat) : Nat × Nat) visited then f
            else getPixelColor img₀ q.1 q.2 := by
      intro q hq
      by_cases hqp : q = ((cx.toNat, cy.toNat) : Nat × Nat)
      · rw [hqp, if_pos (Finset.mem_insert_self _ _)]
        exact getPixelColor_set_self img _ _ f himgwf (by rw [hw]; omega) (by rw [hh]; omega)
      · have hne2 : ((q.1, q.2) : Nat × Nat) ≠ ((cx.toNat, cy.toNat) : Nat × Nat) := by
          rw [Prod.mk.eta]
          exact hqp
        rw [getPixelColor_set_other img cx.toNat cy.toNat q.1 q.2 f
            (by rw [hw]; omega) (by rw [hw]; exact hq.1) hne2]
        rw [hbuf q hq]
        by_cases hqv : q ∈ visited
        · rw [if_pos hqv, if_pos (Finset.mem_insert_of_mem hqv)]
        · have hnotin : q ∉ insert ((cx.toNat, cy.toNat) : Nat × Nat) visited := by
            intro hmem
            rcases Finset.mem_insert.mp hmem with h | h
            · exact hqp h
            · exact hqv h
          rw [if_neg hqv, if_neg hnotin]
    have hvis' : ∀ q ∈ insert ((cx.toNat, cy.toNat) : Nat × Nat) visited,
        inBoundsP img₀ q ∧ Reachable img₀ t seed q := by
      intro q hq
      rcases Finset.mem_insert.mp hq with rfl | hq1
      · exact ⟨hb0, hreach₀⟩
      · exact hvis q hq1
    have hstk' : ∀ e ∈ ((cx, cy - 1) :: (cx, cy + 1) :: (cx - 1, cy) :: (cx + 1, cy) :: rest),
        0 ≤ e.1 → e.1 < (img₀.width : Int) → 0 ≤ e.2 → e.2 < (img₀.height : Int) →
        getPixelColor img₀ e.1.toNat e.2.toNat = t →
        Reachable img₀ t seed (e.1.toNat, e.2.toNat) := by
      intro e he
      rcases List.mem_cons.mp he with rfl | he
      · intro h1 h2 h3 h4 hm
        refine Reachable.step hreach₀ ?_ ?_ hm
        · unfold adjacent
          dsimp only
          omega
        · unfold inBoundsP
          dsimp only
          omega
      rcases List.mem_cons.mp he with rfl | he
      · intro h1 h2 h3 h4 hm
        refine Reachable.step hreach₀ ?_ ?_ hm
        · unfold adjacent
          dsimp only
          omega
        · unfold inBoundsP
          dsimp only
          omega
      rcases List.mem_cons.mp he with rfl | he
      · intro h1 h2 h3 h4 hm
        refine Reachable.step hreach₀ ?_ ?_ hm
        · unfold adjacent
          dsimp only
          omega
        · unfold inBoundsP
          dsimp only
          omega
      rcases List.mem_cons.mp he with rfl | he
      · intro h1 h2 h3 h4 hm
        refine Reachable.step hreach₀ ?_ ?_ hm
        · unfold adjacent
          dsimp only
          omega
        · unfold inBoundsP
          dsimp only
          omega
      exact hstk e (List.mem_cons_of_mem _ he)
    have hclo' : ∀ p' ∈ insert ((cx.toNat, cy.toNat) : Nat × Nat) visited,
        ∀ q : Nat × Nat, adjacent p' q → inBoundsP img₀ q →
        getPixelColor img₀ q.1 q.2 = t →
        q ∈ insert ((cx.toNat, cy.toNat) : Nat × Nat) visited ∨
          ((q.1 : Int), (q.2 : Int)) ∈
            ((cx, cy - 1) :: (cx, cy + 1) :: (cx - 1, cy) :: (cx + 1, cy) :: rest) := by
      intro p' hp' q hadj hbq hmq
      rcases Finset.mem_insert.mp hp' with rfl | hp1
      · refine Or.inr ?_
        unfold adjacent at hadj
        rcases hadj with ⟨h1, h2⟩ | ⟨h1, h2⟩ | ⟨h1, h2⟩ | ⟨h1, h2⟩ <;> dsimp only at h1 h2
        · have hq2 : ((q.1 : Int), (q.2 : Int)) = ((cx + 1 : Int), cy) :=
            Prod.ext (by omega) (by omega)
          rw [hq2]
          simp [List.mem_cons]
        · have hq2 : ((q.1 : Int), (q.2 : Int)) = ((cx - 1 : Int), cy) :=
            Prod.ext (by omega) (by omega)
          rw [hq2]
          simp [List.mem_cons]
        · have hq2 : ((q.1 : Int), (q.2 : Int)) = (cx, (cy + 1 : Int)) :=
            Prod.ext (by omega) (by omega)
          rw [hq2]
          simp [List.mem_cons]
        · have hq2 : ((q.1 : Int), (q.2 : Int)) = (cx, (cy - 1 : Int)) :=
            Prod.ext (by omega) (by omega)
          rw [hq2]
          simp [List.mem_cons]
      · rcases hclo p' hp1 q hadj hbq hmq with h | h
        · exact Or.inl (Finset.mem_insert_of_mem h)
        · rcases List.mem_cons.mp h with heq | hmem
          · exact Or.inl (by rw [hkey q heq]; exact Finset.mem_insert_self _ _)
          · refine Or.inr ?_
            simp only [List.mem_cons] at hmem ⊢
            tauto
    have hsd' : getPixelColor img₀ seed.1 seed.2 = t →
        seed ∈ insert ((cx.toNat, cy.toNat) : Nat × Nat) visited ∨
          ((seed.1 : Int), (seed.2 : Int)) ∈
            ((cx, cy - 1) :: (cx, cy + 1) :: (cx - 1, cy) :: (cx + 1, cy) :: rest) := by
      intro hm
      rcases hsd hm with h | h
      · exact Or.inl (Finset.mem_insert_of_mem h)
      · rcases List.mem_cons.mp h with heq | hmem
        · exact Or.inl (by rw [hkey seed heq]; exact Finset.mem_insert_self _ _)
        · refine Or.inr ?_
          simp only [List.mem_cons] at hmem ⊢
          tauto
    simp only [hstep]
    exact ih img₀ seed hwf hseed hw hh hlen2 hbuf' hvis' hstk' hclo' hsd'
  | case5 img t f visited cx cy rest hoob p₀ hnotvis hnomatch ih =>
    intro img₀ seed hwf hseed hw hh hlen hbuf hvis hstk hclo hsd
    have hstep : floodFillLoop img t f visited ((cx, cy) :: rest)
        = floodFillLoop img t f visited rest := by
      rw [floodFillLoop]
      simp only [if_neg hoob, if_neg hnotvis, if_neg hnomatch]
    have hb0 : inBoundsP img₀ ((cx.toNat, cy.toNat) : Nat × Nat) := by
      rw [hw, hh] at hoob
      constructor
      · simp only []
        omega
      · simp only []
        omega
    have hnm₀ : ∀ q : Nat × Nat, q = ((cx.toNat, cy.toNat) : Nat × Nat) →
        getPixelColor img₀ q.1 q.2 ≠ t := by
      intro q hq hm
      apply hnomatch
      rw [colorsEqual_iff]
      have hcur := hbuf ((cx.toNat, cy.toNat) : Nat × Nat) hb0
      rw [if_neg hnotvis] at hcur
      rw [hcur]
      rw [hq] at hm
      exact hm
    have hkey : ∀ q : Nat × Nat, ((q.1 : Int), (q.2 : Int)) = (cx, cy) →
        q = ((cx.toNat, cy.toNat) : Nat × Nat) := by
      intro q heq
      have h1 : (q.1 : Int) = cx := congrArg Prod.fst heq
      have h2 : (q.2 : Int) = cy := congrArg Prod.snd heq
      exact Prod.ext (by omega) (by omega)
    simp only [hstep]
    refine ih img₀ seed hwf hseed hw hh hlen hbuf hvis ?_ ?_ ?_
    · intro e he
      exact hstk e (List.mem_cons_of_mem _ he)
    · intro p' hp' q hadj hbq hmq
      rcases hclo p' hp' q hadj hbq hmq with h | h
      · exact Or.inl h
      · rcases List.mem_cons.mp h with heq | hmem
        · exact absurd hmq (hnm₀ q (hkey q heq))
        · exact Or.inr hmem
    · intro hm
      rcases hsd hm with h | h
      · exact Or.inl h
      · rcases List.mem_cons.mp h with heq | hmem
        · exact absurd hm (hnm₀ seed (hkey seed heq))
        · exact Or.inr hmem

/-- Full functional characterization of `floodFill` from an in-bounds
seed on a well-formed buffer: a pixel reachable from the seed through the
target-colored 4-connected region reads back `fillColor`, every other
in-bounds pixel reads back its original color. -/
theorem floodFill_spec (img : ImageData) (x y : Int) (targetColor fillColor : Color)
    (hwf : img.data.length = img.width * img.height)
    (hx : 0 ≤ x) (hy : 0 ≤ y)
    (hxw : x < (img.width : Int)) (hyh : y < (img.height : Int)) :
    ∀ p : Nat × Nat, inBoundsP img p →
      (Reachable img targetColor (x.toNat, y.toNat) p →
          getPixelColor (floodFill img x y targetColor fillColor) p.1 p.2 = fillColor) ∧
      (¬ Reachable img targetColor (x.toNat, y.toNat) p →
          getPixelColor (floodFill img x y targetColor fillColor) p.1 p.2
            = getPixelColor img p.1 p.2) := by
  have hseed : inBoundsP img ((x.toNat, y.toNat) : Nat × Nat) := by
    constructor
    · dsimp only
      omega
    · dsimp only
      omega
  refine floodFillLoop_spec img targetColor fillColor ∅ [(x, y)] img (x.toNat, y.toNat)
    hwf hseed rfl rfl rfl ?_ ?_ ?_ ?_ ?_
  · intro p hp
    rw [if_neg (Finset.not_mem_empty p)]
  · intro p hp
    exact absurd hp (Finset.not_mem_empty p)
  · intro e he h1 h2 h3 h4 hm
    rcases List.mem_cons.mp he with rfl | he
    · exact Reachable.refl hseed hm
    · simp at he
  · intro p hp
    exact absurd hp (Finset.not_mem_empty p)
  · intro hm
    refine Or.inr ?_
    have : (((x.toNat : Int), (y.toNat : Int)) : Int × Int) = (x, y) :=
      Prod.ext (Int.toNat_of_nonneg hx) (Int.toNat_of_nonneg hy)
    rw [this]
    exact List.mem_singleton.mpr rfl

/-- One unfolding step of the fuel-indexed loop (definitional). -/
theorem floodFillFuel_cons (fuel : Nat) (img : ImageData) (t f : Color)
    (visited : Finset (Nat × Nat)) (cx cy : Int) (rest : List (Int × Int)) :
    floodFillFuel (fuel + 1) img t f visited ((cx, cy) :: rest)
      = if cx < 0 ∨ (img.width : Int) ≤ cx ∨ cy < 0 ∨ (img.height : Int) ≤ cy then
          floodFillFuel fuel img t f visited rest
        else
          let p : Nat × Nat := (cx.toNat, cy.toNat)
          if p ∈ visited then floodFillFuel fuel img t f visited rest
          else if colorsEqual (getPixelColor img p.1 p.2) t then
            floodFillFuel fuel (setPixelColor img p.1 p.2 f) t f (insert p visited)
              ((cx, cy - 1) :: (cx, cy + 1) :: (cx - 1, cy) :: (cx + 1, cy) :: rest)
          else floodFillFuel fuel img t f visited rest := rfl

/-- Every iteration of the rewritten loop consumes one unit of fuel, so
enough fuel reaches the same result as the loop itself. -/
theorem floodFillFuel_reaches :
    ∀ (img : ImageData) (t f : Color) (visited : Finset (Nat × Nat))
      (stack : List (Int × Int)),
      ∃ fuel : Nat, floodFillFuel fuel img t f visited stack
        = some (floodFillLoop img t f visited stack) := by
  intro img t f visited stack
  induction img, t, f, visited, stack using floodFillLoop.induct with
  | case1 img t f visited =>
    refine ⟨1, ?_⟩
    rw [floodFillLoop]
    rfl
  | case2 img t f visited cx cy rest hoob ih =>
    obtain ⟨n, hn⟩ := ih
    refine ⟨n + 1, ?_⟩
    rw [floodFillFuel_cons, floodFillLoop]
    simp only [if_pos hoob]
    exact hn
  | case3 img t f visited cx cy rest hoob p₀ hvisited ih =>
    obtain ⟨n, hn⟩ := ih
    refine ⟨n + 1, ?_⟩
    rw [floodFillFuel_cons, floodFillLoop]
    simp only [if_neg hoob, if_pos hvisited]
    exact hn
  | case4 img t f visited cx cy rest hoob p₀ hnotvis hmatch ih =>
    obtain ⟨n, hn⟩ := ih
    refine ⟨n + 1, ?_⟩
    rw [floodFillFuel_cons, floodFillLoop]
    simp only [if_neg hoob, if_neg hnotvis, if_pos hmatch]
    exact hn
  | case5 img t f visited cx cy rest hoob p₀ hnotvis hnomatch ih =>
    obtain ⟨n, hn⟩ := ih
    refine ⟨n + 1, ?_⟩
    rw [floodFillFuel_cons, floodFillLoop]
    simp only [if_neg hoob, if_neg hnotvis, if_neg hnomatch]
    exact hn

/-- `saveState` never changes the displayed canvas. -/
theorem saveState_canvas (s : AppState) : (saveState s).canvas = s.canvas := by
  by_cases h : s.history.length > maxHistorySteps <;> simp [saveState, h]

/-- `saveState` never changes the active stroke color. -/
theorem saveState_currentColor (s : AppState) :
    (saveState s).currentColor = s.currentColor := by
  by_cases h : s.history.length > maxHistorySteps <;> simp [saveState, h]

/-- `saveState` never changes the active opacity. -/
theorem saveState_opacity (s : AppState) : (saveState s).opacity = s.opacity := by
  by_cases h : s.history.length > maxHistorySteps <;> simp [saveState, h]

/-- C2: `floodFill` sets to `fillColor` exactly those pixels reachable
from the seed via 4-directional adjacency through pixels whose color
equals `targetColor` in all four channels, and leaves every other pixel
unchanged — in particular a target-colored region not 4-connected to the
seed's region is untouched. -/
theorem floodFill_fills_component (img : ImageData) (x y : Int)
    (targetColor fillColor : Color)
    (hwf : img.data.length = img.width * img.height)
    (hx : 0 ≤ x) (hy : 0 ≤ y)
    (hxw : x < (img.width : Int)) (hyh : y < (img.height : Int)) :
    ∀ p : Nat × Nat, inBoundsP img p →
      (Reachable img targetColor (x.toNat, y.toNat) p →
          getPixelColor (floodFill img x y targetColor fillColor) p.1 p.2 = fillColor) ∧
      (¬ Reachable img targetColor (x.toNat, y.toNat) p →
          getPixelColor (floodFill img x y targetColor fillColor) p.1 p.2
            = getPixelColor img p.1 p.2) :=
  floodFill_spec img x y targetColor fillColor hwf hx hy hxw hyh

/-- C10: the flood-fill loop terminates on every buffer, seed and color
pair: some finite fuel lets the step-indexed reading of the `while` loop
empty its stack, returning exactly `floodFill`'s result. -/
theorem floodFill_terminates (img : ImageData) (x y : Int)
    (targetColor fillColor : Color) :
    ∃ fuel : Nat, floodFillFuel fuel img targetColor fillColor ∅ [(x, y)]
      = some (floodFill img x y targetColor fillColor) :=
  floodFillFuel_reaches img targetColor fillColor ∅ [(x, y)]

/-- C3: when the sampled target color equals the fill color derived from
the stroke color and opacity, `handleFloodFill` returns the state
unchanged (no pixel write, no history push); consequently a second fill
at the same in-bounds point right after a fill is a no-op. -/
theorem fill_same_color_noop (s : AppState) (px py : ℚ)
    (hwf : s.canvas.data.length = s.canvas.width * s.canvas.height)
    (hx : 0 ≤ ⌊px⌋) (hy : 0 ≤ ⌊py⌋)
    (hxw : ⌊px⌋ < (s.canvas.width : Int)) (hyh : ⌊py⌋ < (s.canvas.height : Int)) :
    (getPixelColor s.canvas (⌊px⌋).toNat (⌊py⌋).toNat
        = hexToRgba s.currentColor s.opacity →
      handleFloodFill s px py = s) ∧
    handleFloodFill (handleFloodFill s px py) px py = handleFloodFill s px py := by
  constructor
  · intro heq
    simp only [handleFloodFill]
    rw [if_pos ((colorsEqual_iff _ _).mpr heq)]
  · by_cases hsame : colorsEqual (getPixelColor s.canvas (⌊px⌋).toNat (⌊py⌋).toNat)
        (hexToRgba s.currentColor s.opacity) = true
    · have h1 : handleFloodFill s px py = s := by
        simp only [handleFloodFill]
        rw [if_pos hsame]
      rw [h1]
      exact h1
    · set res := floodFill s.canvas ⌊px⌋ ⌊py⌋ (getPixelColor s.canvas (⌊px⌋).toNat (⌊py⌋).toNat) (hexToRgba s.currentColor s.opacity) with hres
      have h1 : handleFloodFill s px py = saveState { s with canvas := res } := by
        simp only [handleFloodFill]
        rw [if_neg hsame, ← hres]
      have h2 : (saveState { s with canvas := res }).canvas = res := by
        rw [saveState_canvas]
      have h3 : (saveState { s with canvas := res }).currentColor = s.currentColor := by
        rw [saveState_currentColor]
      have h4 : (saveState { s with canvas := res }).opacity = s.opacity := by
        rw [saveState_opacity]
      have hseedin : inBoundsP s.canvas (((⌊px⌋).toNat, (⌊py⌋).toNat) : Nat × Nat) := by
        constructor
        · dsimp only
          omega
        · dsimp only
          omega
      have hfillseed : getPixelColor res (⌊px⌋).toNat (⌊py⌋).toNat
          = hexToRgba s.currentColor s.opacity := by
        rw [hres]
        exact ((floodFill_spec s.canvas ⌊px⌋ ⌊py⌋
            (getPixelColor s.canvas (⌊px⌋).toNat (⌊py⌋).toNat)
            (hexToRgba s.currentColor s.opacity) hwf hx hy hxw hyh
            (((⌊px⌋).toNat, (⌊py⌋).toNat) : Nat × Nat) hseedin).1)
          (Reachable.refl hseedin rfl)
      have hcond : colorsEqual
          (getPixelColor (saveState { s with canvas := res }).canvas
            (⌊px⌋).toNat (⌊py⌋).toNat)
          (hexToRgba (saveState { s with canvas := res }).currentColor
            (saveState { s with canvas := res }).opacity) = true := by
        rw [h2, h3, h4, hfillseed]
        exact (colorsEqual_iff _ _).mpr rfl
      rw [h1]
      simp only [handleFloodFill]
      rw [if_pos hcond]

/-- C8: a complete text-tool gesture whose prompt returns only whitespace
renders nothing (`handleTextTool` leaves the state alone), but the
gesture-end handler still pushes one snapshot of the unchanged canvas:
the history grows by one entry and the cursor advances. -/
theorem cancelled_text_gesture_pushes_snapshot (ops : CanvasOps) :
    (textGesture ops textToolState 1 1 (some "   ")).canvas = textToolState.canvas ∧
    (textGesture ops textToolState 1 1 (some "   ")).history
      = textToolState.history ++ [textToolState.canvas] ∧
    (textGesture ops textToolState 1 1 (some "   ")).historyIndex = 1 :=
  ⟨rfl, rfl, rfl⟩

/-- C9: a committed (non-empty) text stamp appends *two* snapshots over
the full press-to-release gesture: one from `handleTextTool` itself and a
duplicate from the gesture-end handler, which does not exclude the text
tool from its save. -/
theorem text_stamp_pushes_two_snapshots (ops : CanvasOps) :
    (textGesture ops textToolState 1 1 (some "hi")).history
      = textToolState.history ++
          [ops.fillTextAt textToolState.canvas "hi" 1 1 (textToolState.brushSize * 3),
           ops.fillTextAt textToolState.canvas "hi" 1 1 (textToolState.brushSize * 3)] :=
  rfl

/-- Witness for C1's amended statement at 55 concrete snapshots. -/
theorem history_bound_amended_witness :
    (pushCanvases demoCanvases emptyHistoryState).history = demoCanvases.drop 4 ∧
    (pushCanvases demoCanvases emptyHistoryState).history.length = maxHistorySteps + 1 ∧
    (pushCanvases demoCanvases emptyHistoryState).historyIndex = (maxHistorySteps : Int) :=
  history_bound_amended demoCanvases emptyHistoryState rfl rfl (by simp [demoCanvases])

/-- Witness for C2 on the two-region buffer: the seed's region is at the
left, the right white pixel is judged by its (un)reachability. -/
theorem floodFill_fills_component_witness :
    (Reachable demoStripes ⟨255, 255, 255, 255⟩ (0, 0) (2, 0) →
        getPixelColor (floodFill demoStripes 0 0 ⟨255, 255, 255, 255⟩ ⟨200, 30, 30, 255⟩) 2 0
          = ⟨200, 30, 30, 255⟩) ∧
    (¬ Reachable demoStripes ⟨255, 255, 255, 255⟩ (0, 0) (2, 0) →
        getPixelColor (floodFill demoStripes 0 0 ⟨255, 255, 255, 255⟩ ⟨200, 30, 30, 255⟩) 2 0
          = getPixelColor demoStripes 2 0) :=
  floodFill_fills_component demoStripes 0 0 ⟨255, 255, 255, 255⟩ ⟨200, 30, 30, 255⟩
    (by decide) (by decide) (by decide) (by decide) (by decide)
    (2, 0) ⟨by decide, by decide⟩

/-- Witness for C3 at the origin of the blank constructor state. -/
theorem fill_same_color_noop_witness :
    (getPixelColor emptyHistoryState.canvas (⌊(0 : ℚ)⌋).toNat (⌊(0 : ℚ)⌋).toNat
        = hexToRgba emptyHistoryState.currentColor emptyHistoryState.opacity →
      handleFloodFill emptyHistoryState 0 0 = emptyHistoryState) ∧
    handleFloodFill (handleFloodFill emptyHistoryState 0 0) 0 0
      = handleFloodFill emptyHistoryState 0 0 :=
  fill_same_color_noop emptyHistoryState 0 0 (by decide) (by simp) (by simp)
    (by simp [emptyHistoryState, demoCanvas]) (by simp [emptyHistoryState, demoCanvas])

/-- Witness for C4 on a two-snapshot history. -/
theorem undo_redo_inverse_witness :
    (redo (undo twoHistState)).historyIndex = twoHistState.historyIndex ∧
    (redo (undo twoHistState)).history = twoHistState.history ∧
    (redo (undo twoHistState)).canvas = demoCanvas 1 := by
  have h := undo_redo_inverse twoHistState (by decide) (by decide)
  exact ⟨h.1, h.2.1, h.2.2 (demoCanvas 1) (by decide)⟩

/-- Witness for C5 on a single-snapshot history (cursor 0 is also the
last index). -/
theorem undo_redo_boundary_noop_witness :
    undo oneHistState = oneHistState ∧ redo oneHistState = oneHistState := by
  have h := undo_redo_boundary_noop oneHistState
  exact ⟨h.1 (by decide), h.2 (by decide)⟩

/-- Witness for C6: pushing onto a twice-undone history prunes the two
newer snapshots, and redo becomes a no-op. -/
theorem push_prunes_redo_branch_witness :
    (saveState backHistState).historyIndex
        = ((saveState backHistState).history.length : Int) - 1 ∧
    (∃ j : Nat, (j : Int) ≤ backHistState.historyIndex ∧
      (saveState backHistState).history.get? 0 = backHistState.history.get? j) ∧
    redo (saveState backHistState) = saveState backHistState := by
  have h := push_prunes_redo_branch backHistState
  exact ⟨h.1, h.2.1 0 (by decide), h.2.2⟩

/-- Witness for C7 on a single-snapshot history. -/
theorem history_cursor_invariant_witness :
    histInv (saveState oneHistState) ∧
    (histInv (undo oneHistState) ∧ histInv (redo oneHistState)) := by
  have h := history_cursor_invariant oneHistState
  exact ⟨h.1, h.2 ⟨by decide, by decide⟩⟩

end DrawingMaster
